import Mathlib

/-!
Verification of `src/backend/server.js` (projeto-integracao).

The file shallowly embeds the server's pure logic in Lean:

* JavaScript values reachable through a JSON request body are modelled by
  `JSValue`; property access, truthiness and `typeof` follow ECMAScript.
* `validatePayload`, `toCSVCell`, `ensureStorage` and `persistSubmission`
  are direct translations of the functions of the same names in
  `server.js`; the filesystem is modelled by a `Storage` record holding the
  contents of the two output files, and the clock by an explicit
  milliseconds-since-epoch parameter fed to a faithful `Date.toISOString`.
* The spec document renders the code's Portuguese identifiers in English
  (`nome` ≙ `name`, `dadosRecebidos` ≙ `data`, `sucesso` ≙ `success`);
  the embedding keeps the source's own names and byte-level outputs.
-/

namespace ProjetoIntegracao

/-- JavaScript whitespace (`\s` in a regex, and what `String.prototype.trim`
strips): the ECMAScript WhiteSpace and LineTerminator code points. -/
def jsWhitespace (c : Char) : Bool :=
  let n := c.toNat
  n == 0x09 || n == 0x0A || n == 0x0B || n == 0x0C || n == 0x0D ||
  n == 0x20 || n == 0xA0 || n == 0x1680 ||
  (0x2000 ≤ n && n ≤ 0x200A) ||
  n == 0x2028 || n == 0x2029 || n == 0x202F || n == 0x205F ||
  n == 0x3000 || n == 0xFEFF

/-- JavaScript `String.prototype.trim`: drop leading and trailing whitespace. -/
def jsTrim (s : List Char) : List Char :=
  ((s.dropWhile jsWhitespace).reverse.dropWhile jsWhitespace).reverse

/-- JavaScript values that can reach the server's pure logic through a JSON
request body. Numbers are restricted to integers (every numeric value the
claims exercise); nested structure beyond one object level is irrelevant to
the validator, which only reads two properties, but `vObj` may nest. -/
inductive JSValue where
  | vNull
  | vUndefined
  | vBool (b : Bool)
  | vNum (n : Int)
  | vStr (s : List Char)
  | vObj (fields : List (List Char × JSValue))

/-- A thrown JavaScript exception (the only one our code paths can raise is
the `TypeError` from destructuring `null`/`undefined`). -/
inductive JSErr where
  | typeError
deriving DecidableEq

/-- ECMAScript truthiness (`!v` in the source negates this). -/
def isFalsy : JSValue → Bool
  | .vNull => true
  | .vUndefined => true
  | .vBool b => !b
  | .vNum n => n == 0
  | .vStr s => s.isEmpty
  | .vObj _ => false

/-- Test for `typeof v` being the string type. -/
def isStringV : JSValue → Bool
  | .vStr _ => true
  | _ => false

/-- Property read `v[k]`, as performed by the destructuring
`const { nome, email } = body`: throws a `TypeError` on `null`/`undefined`,
looks up an own property on objects, and yields `undefined` on other
primitives (`length` on strings is the one primitive property our keys could
hit; numeric string indices are never accessed by the server). -/
def getProp : JSValue → List Char → Except JSErr JSValue
  | .vNull, _ => .error .typeError
  | .vUndefined, _ => .error .typeError
  | .vObj fs, k => .ok ((List.lookup k fs).getD .vUndefined)
  | .vStr s, k => .ok (if k = "length".data then .vNum (s.length : Int) else .vUndefined)
  | _, _ => .ok .vUndefined

/-- Failure message for rule 1 of `validatePayload` (source line 81). -/
def nomeMsg : List Char := "Nome inválido. Use ao menos 2 caracteres.".data

/-- Failure message for rule 2 of `validatePayload` (source line 86). -/
def emailMsg : List Char := "Email inválido.".data

/-- Tokens of the email pattern `^\S+@\S+\.\S+$`: a one-or-more run of
non-whitespace, or a literal character. -/
inductive RTok where
  | plusNS
  | lit (c : Char)
deriving DecidableEq

/-- Backtracking matcher for an anchored sequence of `RTok` tokens against a
whole character list: `plusNS` consumes one non-whitespace character and then
either moves on or keeps consuming, exactly the search space of `\S+`. -/
def rmatch : List RTok → List Char → Bool
  | [], [] => true
  | [], _ :: _ => false
  | .lit _ :: _, [] => false
  | .lit c :: ts, x :: xs => x == c && rmatch ts xs
  | .plusNS :: _, [] => false
  | .plusNS :: ts, x :: xs =>
      !jsWhitespace x && (rmatch ts xs || rmatch (.plusNS :: ts) xs)
termination_by structural _ l => l

/-- The source's `emailRegex = /^\S+@\S+\.\S+$/` as a token sequence. -/
def emailPat : List RTok := [.plusNS, .lit '@', .plusNS, .lit '.', .plusNS]

/-- Evaluation of `emailRegex.test` on `email` (the regex is anchored on
both sides, so `test` is whole-string matching). -/
def emailRegexTest (s : List Char) : Bool := rmatch emailPat s

/-- Condition of the first guard of `validatePayload`:
`!nome || typeof nome !== 'string' || nome.trim().length < 2`. -/
def nomeBad (v : JSValue) : Bool :=
  isFalsy v || !isStringV v ||
    (match v with
     | .vStr s => decide ((jsTrim s).length < 2)
     | _ => false)

/-- Condition of the second guard of `validatePayload`:
`!email || typeof email !== 'string' || !emailRegex.test(email)`. -/
def emailBad (v : JSValue) : Bool :=
  isFalsy v || !isStringV v ||
    (match v with
     | .vStr s => !emailRegexTest s
     | _ => false)

/-- Result object of `validatePayload`: `{ ok: true }` or
`{ ok: false, message }`. -/
inductive VResult where
  | valid
  | invalid (message : List Char)
deriving DecidableEq

/-- Translation of `validatePayload` from `server.js` lines 78–91. The
destructuring of `nome` and `email` out of `body` reads both properties
first (raising on a nullish `body`); then the two guards run in order,
first failure winning. -/
def validatePayload (body : JSValue) : Except JSErr VResult :=
  match getProp body "nome".data, getProp body "email".data with
  | .error e, _ => .error e
  | _, .error e => .error e
  | .ok nome, .ok email =>
      if nomeBad nome then .ok (.invalid nomeMsg)
      else if emailBad email then .ok (.invalid emailMsg)
      else .ok .valid

/-- JavaScript stringification of a value, as applied by `toCSVCell` (never
reached on the nullish branch). Integer numbers print as in JavaScript. -/
def jsStringOf : JSValue → List Char
  | .vNull => "null".data
  | .vUndefined => "undefined".data
  | .vBool true => "true".data
  | .vBool false => "false".data
  | .vNum n => (toString n).data
  | .vStr s => s
  | .vObj _ => "[object Object]".data

/-- Doubling of every double quote, the global quote replacement performed
by `toCSVCell` before wrapping a cell in quotes. -/
def csvDoubleQuotes (s : List Char) : List Char :=
  s.flatMap fun c => if c = '"' then ['"', '"'] else [c]

/-- Test of `/[",\n]/`: does the string contain a double quote, comma or
newline? -/
def csvNeedsQuoting (s : List Char) : Bool :=
  s.any fun c => c = '"' || c = ',' || c = '\n'

/-- Translation of `toCSVCell` from `server.js` lines 96–104: nullish values
become the empty cell; otherwise the stringified value, wrapped in double
quotes with interior quotes doubled when it contains a comma, quote or
newline. -/
def toCSVCell (v : JSValue) : List Char :=
  match v with
  | .vNull => []
  | .vUndefined => []
  | _ =>
      let str := jsStringOf v
      if csvNeedsQuoting str then '"' :: csvDoubleQuotes str ++ ['"'] else str

/-- Lowercase hexadecimal digit, as used by `JSON.stringify` for `\u00XX`
escapes of control characters. -/
def hexDigitChar (n : Nat) : Char :=
  if n % 16 < 10 then Char.ofNat (48 + n % 16) else Char.ofNat (87 + n % 16)

/-- Escaping of one character by `JSON.stringify` inside a string literal:
quote and backslash are escaped, the five short control escapes are used,
remaining control characters become `\u00XX`, everything else is copied. -/
def jsonEscapeChar (c : Char) : List Char :=
  if c = '"' then ['\\', '"']
  else if c = '\\' then ['\\', '\\']
  else if c = '\x08' then ['\\', 'b']
  else if c = '\x09' then ['\\', 't']
  else if c = '\x0A' then ['\\', 'n']
  else if c = '\x0C' then ['\\', 'f']
  else if c = '\x0D' then ['\\', 'r']
  else if c.toNat < 0x20 then
    ['\\', 'u', '0', '0', hexDigitChar (c.toNat / 16), hexDigitChar (c.toNat % 16)]
  else [c]

/-- Body of a `JSON.stringify` string literal. -/
def jsonEscape (s : List Char) : List Char :=
  s.flatMap jsonEscapeChar

/-- A complete `JSON.stringify` string literal: quoted escaped body. -/
def jsonQuote (s : List Char) : List Char :=
  '"' :: jsonEscape s ++ ['"']

/-- Serialization by `JSON.stringify` of the record built from the fields
`timestamp`, `nome`, `email` (strings): keys appear in insertion order. -/
def jsonStringifyRecord (timestamp nome email : List Char) : List Char :=
  '\x7b' :: jsonQuote "timestamp".data ++ ':' :: jsonQuote timestamp ++
  ',' :: jsonQuote "nome".data ++ ':' :: jsonQuote nome ++
  ',' :: jsonQuote "email".data ++ ':' :: jsonQuote email ++ ['\x7d']

/-- Civil date from a day count since 1970-01-01 (proleptic Gregorian), the
arithmetic underlying `Date.prototype.toISOString`; returns
`(year, month, day)`. -/
def civilFromDays (z : Nat) : Nat × Nat × Nat :=
  let zs := z + 719468
  let era := zs / 146097
  let doe := zs % 146097
  let yoe := (doe - doe / 1460 + doe / 36524 - doe / 146096) / 365
  let doy := doe - (365 * yoe + yoe / 4 - yoe / 100)
  let mp := (5 * doy + 2) / 153
  let d := doy - (153 * mp + 2) / 5 + 1
  let m := if mp < 10 then mp + 3 else mp - 9
  (yoe + era * 400 + (if m ≤ 2 then 1 else 0), m, d)

/-- Decimal digit character of `n % 10`. -/
def decDigit (n : Nat) : Char := Char.ofNat (48 + n % 10)

/-- Two-digit zero-padded decimal (for values below 100). -/
def pad2 (n : Nat) : List Char := [decDigit (n / 10), decDigit n]

/-- Three-digit zero-padded decimal (for values below 1000). -/
def pad3 (n : Nat) : List Char := [decDigit (n / 100), decDigit (n / 10), decDigit n]

/-- Four-digit zero-padded decimal (for values below 10000). -/
def pad4 (n : Nat) : List Char := [decDigit (n / 1000), decDigit (n / 100), decDigit (n / 10), decDigit n]

/-- First millisecond of the year 10000: `new Date(t).toISOString()` agrees
with our `toISOString` for `t` below this bound (beyond it JavaScript
switches to the expanded `+YYYYYY` year form, which the server never
reaches). -/
def isoMax : Nat := 253402300800000

/-- Rendering of an epoch-milliseconds clock reading `t` by the JavaScript
`Date` method `toISOString` (UTC, format `YYYY-MM-DDTHH:mm:ss.sssZ`),
faithful for `t < isoMax`. -/
def toISOString (t : Nat) : List Char :=
  let (y, m, d) := civilFromDays (t / 86400000)
  pad4 y ++ '-' :: pad2 m ++ '-' :: pad2 d ++
  'T' :: pad2 (t / 3600000 % 24) ++ ':' :: pad2 (t / 60000 % 60) ++
  ':' :: pad2 (t / 1000 % 60) ++ '.' :: pad3 (t % 1000) ++ ['Z']

/-- Contents of the two output files; `none` models an absent file. -/
structure Storage where
  jsonl : Option (List Char)
  csv : Option (List Char)
deriving DecidableEq

/-- The CSV header written by `ensureStorage` (source line 63):
`'timestamp,nome,email\n'`. -/
def csvHeader : List Char := "timestamp,nome,email\n".data

/-- Translation of `ensureStorage` from `server.js` lines 48–72: creates the JSONL file
empty and the CSV file with its header when they are absent, and leaves an
existing file untouched (the directory creation and error propagation are
filesystem-trivial here, since the model's writes cannot fail). -/
def ensureStorage (st : Storage) : Storage :=
  { jsonl := some (st.jsonl.getD []),
    csv := some (st.csv.getD csvHeader) }

/-- The persisted record `{ timestamp, nome, email }`. -/
structure Record where
  timestamp : List Char
  nome : List Char
  email : List Char
deriving DecidableEq

/-- Translation of `persistSubmission` from `server.js` lines 111–130,
with the clock sample `new Date()` made explicit as epoch milliseconds
`now`: appends one JSON line and one CSV line (an `appendFile` creates a
missing file, hence the `getD []`), returning the record. -/
def persistSubmission (st : Storage) (now : Nat) (nome email : List Char) :
    Storage × Record :=
  let timestamp := toISOString now
  let record : Record := ⟨timestamp, nome, email⟩
  let jsonlLine := jsonStringifyRecord timestamp nome email ++ ['\n']
  let csvLine :=
    toCSVCell (.vStr timestamp) ++ ',' :: toCSVCell (.vStr nome) ++
    ',' :: toCSVCell (.vStr email) ++ ['\n']
  ({ jsonl := some (st.jsonl.getD [] ++ jsonlLine),
     csv := some (st.csv.getD [] ++ csvLine) }, record)

/-- Response of `POST /api/enviar`: the success JSON (HTTP 200 with the
echoed record under `dadosRecebidos`), the validation failure (HTTP 400 with
the validator's message), or the error-middleware response (HTTP 500). -/
inductive Resp where
  | ok (dadosRecebidos : Record)
  | badRequest (message : List Char)
  | serverError
deriving DecidableEq

/-- HTTP status code of a response. -/
def Resp.statusCode : Resp → Nat
  | .ok _ => 200
  | .badRequest _ => 400
  | .serverError => 500

/-- The `POST /api/enviar` handler from `server.js` lines 141–175: validate,
then ensure storage, persist and echo; a thrown `TypeError` reaches the
error middleware via `next(err)` and yields the 500 response. On the valid
path the two properties are strings (guaranteed by the validator), so the
`[]` fallbacks are dead. -/
def handleEnviar (st : Storage) (now : Nat) (body : JSValue) : Storage × Resp :=
  match validatePayload body with
  | .error _ => (st, .serverError)
  | .ok (.invalid msg) => (st, .badRequest msg)
  | .ok .valid =>
      let nome := match getProp body "nome".data with | .ok (.vStr s) => s | _ => []
      let email := match getProp body "email".data with | .ok (.vStr s) => s | _ => []
      let st1 := ensureStorage st
      let (st2, saved) := persistSubmission st1 now nome email
      (st2, .ok saved)

/-- A sequence of persisted submissions, each performed as the endpoint does
it: `ensureStorage` then `persistSubmission`, with clock sample `t` and the
validated `nome`/`email` strings. -/
def runSubmissions (st : Storage) : List (Nat × List Char × List Char) → Storage
  | [] => st
  | (t, nome, email) :: rest =>
      runSubmissions (persistSubmission (ensureStorage st) t nome email).1 rest

/-- Accumulator-style split of a character stream into `'\n'`-terminated
lines (a final unterminated fragment counts as a line; a trailing newline
does not create an empty line). -/
def linesAux : List Char → List Char → List (List Char)
  | [], acc => if acc.isEmpty then [] else [acc.reverse]
  | c :: rest, acc =>
      if c = '\n' then acc.reverse :: linesAux rest []
      else linesAux rest (c :: acc)

/-- The physical lines of a file's contents. -/
def linesOf (s : List Char) : List (List Char) := linesAux s []

/-- The spec's validation rule 1, stated in its own words: `name` must be a
string whose trimmed length is at least 2 (to be compared with the source's
guard `nomeBad`). -/
def nameRuleOk : JSValue → Bool
  | .vStr s => decide (2 ≤ (jsTrim s).length)
  | _ => false

/-- The spec's validation rule 2, stated in its own words: `email` must be a
string matching the anchored pattern (to be compared with the source's guard
`emailBad`). -/
def emailRuleOk : JSValue → Bool
  | .vStr s => emailRegexTest s
  | _ => false

/-- Numeric value of a hexadecimal digit character, for reading back
`\u00XX` escapes. -/
def hexVal (c : Char) : Option Nat :=
  if '0' ≤ c ∧ c ≤ '9' then some (c.toNat - 48)
  else if 'a' ≤ c ∧ c ≤ 'f' then some (c.toNat - 87)
  else if 'A' ≤ c ∧ c ≤ 'F' then some (c.toNat - 55)
  else none

/-- JSON string-literal body reader: consumes characters (decoding the
escape sequences `JSON.stringify` can emit) up to the terminating quote and
returns the decoded content together with the input after the quote. -/
def parseJsonStringBody : List Char → Option (List Char × List Char)
  | [] => none
  | '"' :: rest => some ([], rest)
  | '\\' :: rest =>
      match rest with
      | 'u' :: h1 :: h2 :: h3 :: h4 :: rest2 => do
          let a ← hexVal h1
          let b ← hexVal h2
          let c ← hexVal h3
          let d ← hexVal h4
          let (s, r) ← parseJsonStringBody rest2
          some (Char.ofNat (((a * 16 + b) * 16 + c) * 16 + d) :: s, r)
      | e :: rest2 => do
          let c ←
            (if e = '"' then some '"'
             else if e = '\\' then some '\\'
             else if e = '/' then some '/'
             else if e = 'b' then some '\x08'
             else if e = 't' then some '\x09'
             else if e = 'n' then some '\x0A'
             else if e = 'f' then some '\x0C'
             else if e = 'r' then some '\x0D'
             else none)
          let (s, r) ← parseJsonStringBody rest2
          some (c :: s, r)
      | [] => none
  | c :: rest => do
      let (s, r) ← parseJsonStringBody rest
      some (c :: s, r)
termination_by structural l => l

/-- Reads one `"key":"value"` member of a JSON object with string values,
returning the decoded key and value and the remaining input. -/
def parseMember (l : List Char) : Option ((List Char × List Char) × List Char) :=
  match l with
  | '"' :: r1 =>
      match parseJsonStringBody r1 with
      | some (k, ':' :: '"' :: r3) =>
          match parseJsonStringBody r3 with
          | some (v, r4) => some ((k, v), r4)
          | none => none
      | _ => none
  | _ => none

/-- Parses one JSONL line as the persisted record: a JSON object with the
three string members in the order `timestamp`, `nome`, `email` and nothing
else. -/
def parseRecordLine (l : List Char) : Option Record :=
  match l with
  | '\x7b' :: r1 =>
      match parseMember r1 with
      | some ((k1, v1), ',' :: r2) =>
          match parseMember r2 with
          | some ((k2, v2), ',' :: r3) =>
              match parseMember r3 with
              | some ((k3, v3), ['\x7d']) =>
                  if k1 = "timestamp".data ∧ k2 = "nome".data ∧ k3 = "email".data
                  then some ⟨v1, v2, v3⟩ else none
              | _ => none
          | _ => none
      | _ => none
  | _ => none

/-- RFC-4180 reading of a quoted cell body (the input after the opening
quote): a doubled quote decodes to one quote, the closing quote must end the
cell, and any other character is literal. -/
def csvUnquote : List Char → Option (List Char)
  | [] => none
  | '"' :: '"' :: rest => (csvUnquote rest).map (fun s => '"' :: s)
  | ['"'] => some []
  | '"' :: _ :: _ => none
  | c :: rest => (csvUnquote rest).map (fun s => c :: s)

/-- RFC-4180 reading of one standalone cell: a cell opening with a quote is
read by `csvUnquote`; an unquoted cell is literal and may not contain a
comma, quote or newline. -/
def parseCSVCell (l : List Char) : Option (List Char) :=
  match l with
  | '"' :: rest => csvUnquote rest
  | _ => if l.any (fun c => c = ',' || c = '\n' || c = '"') then none else some l

/-- Value of a decimal digit character. -/
def dval (c : Char) : Nat := c.toNat - 48

/-- Syntactic validity of an ISO-8601 UTC timestamp of the exact shape
`YYYY-MM-DDTHH:mm:ss.sssZ`: 24 characters, digits and separators in place,
month in 1–12, day in 1–31, hour below 24, minute and second below 60. -/
def validISO (l : List Char) : Bool :=
  match l with
  | [y1, y2, y3, y4, a1, m1, m2, a2, d1, d2, a3, h1, h2, a4, n1, n2, a5, x1, x2, a6, f1, f2, f3, a7] =>
      a1 == '-' && a2 == '-' && a3 == 'T' && a4 == ':' && a5 == ':' &&
      a6 == '.' && a7 == 'Z' &&
      ([y1, y2, y3, y4, m1, m2, d1, d2, h1, h2, n1, n2, x1, x2, f1, f2, f3].all Char.isDigit) &&
      (let m := dval m1 * 10 + dval m2
       let d := dval d1 * 10 + dval d2
       let hh := dval h1 * 10 + dval h2
       let mi := dval n1 * 10 + dval n2
       let ss := dval x1 * 10 + dval x2
       decide (1 ≤ m) && decide (m ≤ 12) && decide (1 ≤ d) && decide (d ≤ 31) &&
       decide (hh ≤ 23) && decide (mi ≤ 59) && decide (ss ≤ 59))
  | _ => false

/-- The JSONL line body (without the trailing newline) that
`persistSubmission` writes for the submission `(t, nome, email)`. -/
def jsonLineFor (s : Nat × List Char × List Char) : List Char :=
  jsonStringifyRecord (toISOString s.1) s.2.1 s.2.2

/-- The CSV data row (without the trailing newline) that `persistSubmission`
writes for the submission `(t, nome, email)`. -/
def csvRowOf (s : Nat × List Char × List Char) : List Char :=
  toCSVCell (.vStr (toISOString s.1)) ++ ',' :: toCSVCell (.vStr s.2.1) ++
  ',' :: toCSVCell (.vStr s.2.2)

/-- Concatenation of line bodies, each terminated by a newline: the shape of
a file produced by appending newline-terminated lines. -/
def withNewlines : List (List Char) → List Char
  | [] => []
  | l :: ls => l ++ '\n' :: withNewlines ls

end ProjetoIntegracao

namespace ProjetoIntegracao

theorem civilFromDays_bounds (z : Nat) :
    1 ≤ (civilFromDays z).2.1 ∧ (civilFromDays z).2.1 ≤ 12 ∧
    1 ≤ (civilFromDays z).2.2 ∧ (civilFromDays z).2.2 ≤ 31 := by
  simp only [civilFromDays]
  split_ifs <;> omega

theorem decDigit_isDigit (n : Nat) : (decDigit n).isDigit = true := by
  have h : n % 10 < 10 := Nat.mod_lt _ (by norm_num)
  unfold decDigit
  generalize n % 10 = k at h ⊢
  interval_cases k <;> decide

theorem dval_decDigit (n : Nat) : dval (decDigit n) = n % 10 := by
  have h : n % 10 < 10 := Nat.mod_lt _ (by norm_num)
  unfold decDigit dval
  generalize n % 10 = k at h ⊢
  interval_cases k <;> decide

theorem validISO_toISOString (t : Nat) : validISO (toISOString t) = true := by
  have hb := civilFromDays_bounds (t / 86400000)
  rcases hcd : civilFromDays (t / 86400000) with ⟨y, m, d⟩
  rw [hcd] at hb
  dsimp only at hb
  simp only [toISOString, hcd, pad4, pad2, pad3, List.cons_append, List.nil_append,
    List.append_assoc]
  simp only [validISO, List.all_cons, List.all_nil, decDigit_isDigit, Bool.and_true,
    Bool.true_and, dval_decDigit, Bool.and_eq_true, decide_eq_true_eq, beq_self_eq_true]
  omega

theorem hexVal_hexDigitChar (n : Nat) : hexVal (hexDigitChar n) = some (n % 16) := by
  have h : n % 16 < 16 := Nat.mod_lt _ (by norm_num)
  unfold hexDigitChar hexVal
  generalize n % 16 = k at h ⊢
  interval_cases k <;> decide

theorem parseJsonStringBody_escape (s rest : List Char) :
    parseJsonStringBody (jsonEscape s ++ '"' :: rest) = some (s, rest) := by
  induction s with
  | nil => simp [jsonEscape, parseJsonStringBody]
  | cons c s ih =>
      have he : jsonEscape (c :: s) = jsonEscapeChar c ++ jsonEscape s := by
        simp [jsonEscape]
      rw [he, List.append_assoc]
      unfold jsonEscapeChar
      split_ifs with h1 h2 h3 h4 h5 h6 h7 h8
      · subst h1; simp [parseJsonStringBody, ih]
      · subst h2; simp [parseJsonStringBody, ih]
      · subst h3; simp [parseJsonStringBody, ih]
      · subst h4; simp [parseJsonStringBody, ih]
      · subst h5; simp [parseJsonStringBody, ih]
      · subst h6; simp [parseJsonStringBody, ih]
      · subst h7; simp [parseJsonStringBody, ih]
      · have h0 : hexVal '0' = some 0 := by decide
        simp only [List.cons_append, List.nil_append]
        simp [parseJsonStringBody, hexVal_hexDigitChar, ih, h0]
        rw [show c.toNat / 16 % 16 * 16 + c.toNat % 16 = c.toNat from by omega]
        exact Char.ofNat_toNat c
      · rw [parseJsonStringBody.eq_def]
        simp only [List.cons_append]
        simp [ih]

theorem parseMember_quote (k v rest : List Char) :
    parseMember (jsonQuote k ++ (':' :: (jsonQuote v ++ rest))) = some ((k, v), rest) := by
  have h : jsonQuote k ++ (':' :: (jsonQuote v ++ rest)) =
      '"' :: (jsonEscape k ++ '"' :: (':' :: '"' :: (jsonEscape v ++ '"' :: rest))) := by
    simp [jsonQuote]
  rw [h]
  simp [parseMember, parseJsonStringBody_escape]

theorem parseRecordLine_stringify (ts nome email : List Char) :
    parseRecordLine (jsonStringifyRecord ts nome email) = some ⟨ts, nome, email⟩ := by
  have h : jsonStringifyRecord ts nome email =
      '\x7b' :: (jsonQuote "timestamp".data ++ (':' :: (jsonQuote ts ++
        (',' :: (jsonQuote "nome".data ++ (':' :: (jsonQuote nome ++
          (',' :: (jsonQuote "email".data ++ (':' :: (jsonQuote email ++
            ['\x7d']))))))))))) := by
    simp [jsonStringifyRecord]
  rw [h]
  simp [parseRecordLine, parseMember_quote]

theorem csvUnquote_doubled (s : List Char) :
    csvUnquote (csvDoubleQuotes s ++ ['"']) = some s := by
  induction s with
  | nil => simp [csvDoubleQuotes, csvUnquote]
  | cons c s ih =>
      by_cases hc : c = '"'
      · subst hc
        have h : csvDoubleQuotes ('"' :: s) = '"' :: '"' :: csvDoubleQuotes s := by
          simp [csvDoubleQuotes]
        rw [h]
        simp [csvUnquote, ih]
      · have h : csvDoubleQuotes (c :: s) = c :: csvDoubleQuotes s := by
          simp [csvDoubleQuotes, hc]
        rw [h]
        rw [csvUnquote.eq_def]
        simp only [List.cons_append]
        simp [hc, ih]

theorem parseCSVCell_toCSVCell (s : List Char) :
    parseCSVCell (toCSVCell (.vStr s)) = some s := by
  by_cases hq : csvNeedsQuoting s
  · have h : toCSVCell (.vStr s) = '"' :: csvDoubleQuotes s ++ ['"'] := by
      simp [toCSVCell, jsStringOf, hq]
    rw [h]
    simp [parseCSVCell, csvUnquote_doubled]
  · have ht : toCSVCell (.vStr s) = s := by simp [toCSVCell, jsStringOf, hq]
    rw [ht]
    simp [csvNeedsQuoting, List.any_eq_true] at hq
    cases s with
    | nil => simp [parseCSVCell]
    | cons c cs =>
        have hc : c ≠ '"' := fun e => by
          have := hq c (List.mem_cons_self c cs)
          simp [e] at this
        rw [parseCSVCell.eq_def]
        simp [hc]
        refine ⟨?_, ?_⟩
        · have h1 := hq c (List.mem_cons_self c cs)
          tauto
        · intro x hx
          have h2 := hq x (List.mem_cons_of_mem _ hx)
          tauto

theorem nomeBad_eq_not_nameRuleOk (v : JSValue) : nomeBad v = !nameRuleOk v := by
  cases v with
  | vStr s =>
      cases s with
      | nil => decide
      | cons c cs =>
          simp only [nomeBad, nameRuleOk, isFalsy, isStringV, List.isEmpty_cons,
            Bool.not_true, Bool.false_or, Bool.or_false]
          by_cases h : (jsTrim (c :: cs)).length < 2 <;> simp [h]
          omega
  | vNull => decide
  | vUndefined => decide
  | vBool b => cases b <;> decide
  | vNum n => simp [nomeBad, nameRuleOk, isFalsy, isStringV]
  | vObj fs => simp [nomeBad, nameRuleOk, isFalsy, isStringV]

theorem emailBad_eq_not_emailRuleOk (v : JSValue) : emailBad v = !emailRuleOk v := by
  cases v with
  | vStr s =>
      cases s with
      | nil => decide
      | cons c cs =>
          simp [emailBad, emailRuleOk, isFalsy, isStringV]
  | vNull => decide
  | vUndefined => decide
  | vBool b => cases b <;> decide
  | vNum n => simp [emailBad, emailRuleOk, isFalsy, isStringV]
  | vObj fs => simp [emailBad, emailRuleOk, isFalsy, isStringV]

theorem decDigit_ne_newline (n : Nat) : decDigit n ≠ '\n' := by
  intro e
  have h := decDigit_isDigit n
  rw [e] at h
  exact absurd h (by decide)

theorem hexDigitChar_ne_newline (n : Nat) : hexDigitChar n ≠ '\n' := by
  have h : n % 16 < 16 := Nat.mod_lt _ (by norm_num)
  unfold hexDigitChar
  generalize n % 16 = k at h ⊢
  interval_cases k <;> decide

theorem no_newline_jsonEscapeChar (c : Char) : '\n' ∉ jsonEscapeChar c := by
  unfold jsonEscapeChar
  split_ifs with h1 h2 h3 h4 h5 h6 h7 h8
  · decide
  · decide
  · decide
  · decide
  · decide
  · decide
  · decide
  · intro hm
    simp only [List.mem_cons, List.not_mem_nil, or_false] at hm
    rcases hm with e | e | e | e | e | e <;> first
      | exact absurd e (by decide)
      | exact hexDigitChar_ne_newline _ e.symm
  · intro hm
    simp only [List.mem_cons, List.not_mem_nil, or_false] at hm
    rw [← hm] at h8
    exact h8 (by decide)

theorem no_newline_jsonEscape (s : List Char) : '\n' ∉ jsonEscape s := by
  simp only [jsonEscape, List.mem_flatMap]
  rintro ⟨c, _, hm⟩
  exact no_newline_jsonEscapeChar c hm

theorem no_newline_jsonStringifyRecord (a b c : List Char) :
    '\n' ∉ jsonStringifyRecord a b c := by
  simp [jsonStringifyRecord, jsonQuote, List.mem_append, List.mem_cons,
    no_newline_jsonEscape]

theorem decDigit_beq_newline (n : Nat) : (decDigit n == '\n') = false := by
  have h := decDigit_ne_newline n
  simp [h]

theorem no_newline_toISOString (t : Nat) : '\n' ∉ toISOString t := by
  have hall : (toISOString t).all (fun c => !(c == '\n')) = true := by
    rcases hcd : civilFromDays (t / 86400000) with ⟨y, m, d⟩
    simp only [toISOString, hcd, pad4, pad2, pad3, List.cons_append, List.nil_append,
      List.append_assoc]
    simp [decDigit_beq_newline]
  intro hm
  have h2 := List.all_eq_true.mp hall _ hm
  simp at h2

theorem mem_csvDoubleQuotes (c : Char) (s : List Char) (h : c ∈ csvDoubleQuotes s) :
    c = '"' ∨ c ∈ s := by
  simp only [csvDoubleQuotes, List.mem_flatMap] at h
  rcases h with ⟨x, hx, hm⟩
  by_cases hq : x = '"'
  · subst hq
    simp at hm
    exact Or.inl hm
  · simp [hq] at hm
    exact Or.inr (hm ▸ hx)

theorem mem_toCSVCell (c : Char) (s : List Char) (h : c ∈ toCSVCell (.vStr s)) :
    c = '"' ∨ c ∈ s := by
  by_cases hq : csvNeedsQuoting s
  · rw [show toCSVCell (.vStr s) = '"' :: csvDoubleQuotes s ++ ['"'] from by
      simp [toCSVCell, jsStringOf, hq]] at h
    simp only [List.cons_append, List.mem_cons, List.mem_append,
      List.not_mem_nil, or_false] at h
    rcases h with e | hm | e
    · exact Or.inl e
    · exact mem_csvDoubleQuotes c s hm
    · exact Or.inl e
  · rw [show toCSVCell (.vStr s) = s from by simp [toCSVCell, jsStringOf, hq]] at h
    exact Or.inr h

theorem no_newline_csvRowOf (s : Nat × List Char × List Char)
    (hn : '\n' ∉ s.2.1) (he : '\n' ∉ s.2.2) : '\n' ∉ csvRowOf s := by
  simp only [csvRowOf, List.mem_append, List.mem_cons]
  intro hm
  rcases hm with (h | h | h) | h | h
  · rcases mem_toCSVCell _ _ h with e | hmem
    · exact absurd e (by decide)
    · exact no_newline_toISOString s.1 hmem
  · exact absurd h (by decide)
  · rcases mem_toCSVCell _ _ h with e | hmem
    · exact absurd e (by decide)
    · exact hn hmem
  · exact absurd h (by decide)
  · rcases mem_toCSVCell _ _ h with e | hmem
    · exact absurd e (by decide)
    · exact he hmem

theorem linesAux_append_newline (a : List Char) (h : '\n' ∉ a) (rest acc : List Char) :
    linesAux (a ++ '\n' :: rest) acc = (acc.reverse ++ a) :: linesAux rest [] := by
  induction a generalizing acc with
  | nil => simp [linesAux]
  | cons c a ih =>
      have hc : c ≠ '\n' := fun e => h (e ▸ List.mem_cons_self c a)
      have hrec := ih (fun hm => h (List.mem_cons_of_mem _ hm)) (c :: acc)
      simp only [List.cons_append, linesAux, if_neg hc, List.append_eq]
      rw [hrec]
      simp

theorem linesOf_withNewlines (L : List (List Char)) (h : ∀ l ∈ L, '\n' ∉ l) :
    linesOf (withNewlines L) = L := by
  induction L with
  | nil => simp [withNewlines, linesOf, linesAux]
  | cons x L ih =>
      have hx : '\n' ∉ x := h x (List.mem_cons_self x L)
      have hL : ∀ l ∈ L, '\n' ∉ l := fun l hl => h l (List.mem_cons_of_mem _ hl)
      simp only [withNewlines, linesOf]
      rw [linesAux_append_newline x hx]
      simp only [List.reverse_nil, List.nil_append, List.cons.injEq, true_and]
      exact ih hL

theorem runSubmissions_content (subs : List (Nat × List Char × List Char))
    (j c : List Char) :
    runSubmissions ⟨some j, some c⟩ subs =
      ⟨some (j ++ withNewlines (subs.map jsonLineFor)),
       some (c ++ withNewlines (subs.map csvRowOf))⟩ := by
  induction subs generalizing j c with
  | nil => simp [runSubmissions, withNewlines]
  | cons s rest ih =>
      rcases s with ⟨t, nome, email⟩
      simp only [runSubmissions, ensureStorage, persistSubmission, Option.getD_some]
      rw [ih]
      simp [withNewlines, jsonLineFor, csvRowOf, List.append_assoc]

theorem rmatch_all_nonspace (l : List Char) : ∀ ts : List RTok,
    (∀ c, RTok.lit c ∈ ts → jsWhitespace c = false) →
    rmatch ts l = true → ∀ c ∈ l, jsWhitespace c = false := by
  induction l with
  | nil => intro ts _ _ c hc; exact absurd hc (List.not_mem_nil c)
  | cons x xs ih =>
      intro ts hts hm c hc
      cases ts with
      | nil => simp [rmatch] at hm
      | cons t ts2 =>
          cases t with
          | lit ch =>
              simp only [rmatch, Bool.and_eq_true, beq_iff_eq] at hm
              obtain ⟨hx, hrest⟩ := hm
              rcases List.mem_cons.mp hc with e | e
              · subst e
                rw [hx]
                exact hts ch (List.mem_cons_self _ _)
              · exact ih ts2 (fun d hd => hts d (List.mem_cons_of_mem _ hd)) hrest c e
          | plusNS =>
              simp only [rmatch, Bool.and_eq_true, Bool.or_eq_true,
                Bool.not_eq_true'] at hm
              obtain ⟨hx, hrest⟩ := hm
              rcases List.mem_cons.mp hc with e | e
              · subst e; exact hx
              · rcases hrest with hr | hr
                · exact ih ts2 (fun d hd => hts d (List.mem_cons_of_mem _ hd)) hr c e
                · exact ih (.plusNS :: ts2) hts hr c e

theorem no_newline_of_emailBad_false (s : List Char)
    (h : emailBad (.vStr s) = false) : '\n' ∉ s := by
  have ht : emailRegexTest s = true := by
    simp only [emailBad, isFalsy, isStringV, Bool.not_true, Bool.or_false,
      Bool.false_or, Bool.or_eq_false_iff, Bool.not_eq_false] at h
    simpa using h.2
  intro hm
  have hws := rmatch_all_nonspace s emailPat
    (by
      intro c hc
      simp only [emailPat, List.mem_cons, List.not_mem_nil, or_false] at hc
      rcases hc with e | e | e | e | e <;> first
        | (cases e; decide)
        | exact absurd e (by simp))
    ht '\n' hm
  exact absurd hws (by decide)

/-- C1 (counterexample): the claim says the validator handles a `null` or
`undefined` payload "without raising"; the destructuring
`const \x7b nome, email \x7d = body` in fact throws a `TypeError` on both. -/
theorem validatePayload_nullish_raises :
    validatePayload .vNull = .error .typeError ∧
    validatePayload .vUndefined = .error .typeError :=
  ⟨rfl, rfl⟩

/-- C1 (amended): `validatePayload` is total, deterministic and side-effect
free over every payload other than `null`/`undefined` — missing fields and
wrong-typed fields always produce a valid/invalid verdict. -/
theorem validatePayload_total_of_nonnullish (body : JSValue)
    (h1 : body ≠ .vNull) (h2 : body ≠ .vUndefined) :
    ∃ r, validatePayload body = .ok r := by
  have key : ∀ nome email : JSValue, ∃ r : VResult,
      (if nomeBad nome then (.ok (.invalid nomeMsg) : Except JSErr VResult)
       else if emailBad email then .ok (.invalid emailMsg) else .ok .valid) = .ok r := by
    intro a b
    by_cases hA : nomeBad a <;> by_cases hB : emailBad b <;> simp [hA, hB]
  cases body with
  | vNull => exact absurd rfl h1
  | vUndefined => exact absurd rfl h2
  | vBool b => exact key .vUndefined .vUndefined
  | vNum n => exact key .vUndefined .vUndefined
  | vStr s => exact key .vUndefined .vUndefined
  | vObj fs =>
      exact key ((List.lookup "nome".data fs).getD .vUndefined)
        ((List.lookup "email".data fs).getD .vUndefined)

theorem validatePayload_total_of_nonnullish_witness :
    ∃ r, validatePayload (.vObj []) = .ok r :=
  validatePayload_total_of_nonnullish (.vObj [])
    (fun h => JSValue.noConfusion h) (fun h => JSValue.noConfusion h)

/-- C2: the validator applies rule 1 (`nome` a string of trimmed length at
least 2, Portuguese name message on failure) before rule 2 (`email` a string
matching the anchored pattern, email message on failure), first failure
winning; a payload failing both yields the name message. -/
theorem validatePayload_checks_in_order (body nome email : JSValue)
    (hn : getProp body "nome".data = .ok nome)
    (he : getProp body "email".data = .ok email) :
    validatePayload body =
      .ok (if nameRuleOk nome then
             (if emailRuleOk email then .valid else .invalid emailMsg)
           else .invalid nomeMsg) ∧
    (nameRuleOk nome = false → validatePayload body = .ok (.invalid nomeMsg)) := by
  have heq : validatePayload body =
      .ok (if nameRuleOk nome then
             (if emailRuleOk email then .valid else .invalid emailMsg)
           else .invalid nomeMsg) := by
    simp only [validatePayload, hn, he, nomeBad_eq_not_nameRuleOk,
      emailBad_eq_not_emailRuleOk]
    cases nameRuleOk nome <;> cases emailRuleOk email <;> simp
  exact ⟨heq, fun hf => by rw [heq, hf]; simp⟩

theorem validatePayload_checks_in_order_witness :
    validatePayload (.vObj [("nome".data, .vNum 0), ("email".data, .vNum 0)]) =
      .ok (.invalid nomeMsg) :=
  (validatePayload_checks_in_order
    (.vObj [("nome".data, .vNum 0), ("email".data, .vNum 0)])
    (.vNum 0) (.vNum 0) rfl rfl).2 rfl

/-- C3 (counterexample): a valid submission whose name contains an embedded
newline (`"a\nb"` passes validation: trimming only strips at the ends) makes
the CSV file hold 3 physical lines after N = 1 submission, not N + 1 = 2 —
the quoted cell keeps the raw newline. -/
theorem csv_line_count_newline_name_counterexample :
    nomeBad (.vStr "a\nb".data) = false ∧
    emailBad (.vStr "a@b.c".data) = false ∧
    (runSubmissions (ensureStorage ⟨none, none⟩)
        [(0, "a\nb".data, "a@b.c".data)]).csv.map (fun c => (linesOf c).length) =
      some 3 ∧
    (3 : Nat) ≠ 1 + 1 := by
  refine ⟨by decide, by decide, by decide, by decide⟩

/-- C3 (amended): for every sequence of valid submissions, none of whose
names contains an embedded newline, persisted from freshly initialized
storage, the JSONL file holds exactly N lines — the serialized records in
submission order, each parsing back to its record — and the CSV file holds
exactly N + 1 lines: the header followed by the data rows in submission
order. -/
theorem roundtrip_lines_of_submissions (subs : List (Nat × List Char × List Char))
    (hval : ∀ s ∈ subs, nomeBad (.vStr s.2.1) = false ∧ emailBad (.vStr s.2.2) = false)
    (hnl : ∀ s ∈ subs, '\n' ∉ s.2.1) :
    ∃ jl cs,
      runSubmissions (ensureStorage ⟨none, none⟩) subs = ⟨some jl, some cs⟩ ∧
      linesOf jl = subs.map jsonLineFor ∧
      (linesOf jl).length = subs.length ∧
      (∀ s ∈ subs,
        parseRecordLine (jsonLineFor s) = some ⟨toISOString s.1, s.2.1, s.2.2⟩) ∧
      linesOf cs = "timestamp,nome,email".data :: subs.map csvRowOf ∧
      (linesOf cs).length = subs.length + 1 := by
  have hstart : ensureStorage ⟨none, none⟩ = ⟨some [], some csvHeader⟩ := rfl
  have hrun := runSubmissions_content subs [] csvHeader
  have hjl : linesOf (withNewlines (subs.map jsonLineFor)) = subs.map jsonLineFor := by
    apply linesOf_withNewlines
    intro l hl
    rcases List.mem_map.mp hl with ⟨s, _, rfl⟩
    exact no_newline_jsonStringifyRecord _ _ _
  have hcsv1 : csvHeader ++ withNewlines (subs.map csvRowOf) =
      withNewlines ("timestamp,nome,email".data :: subs.map csvRowOf) := by
    have hh : csvHeader = "timestamp,nome,email".data ++ ['\n'] := by decide
    simp [withNewlines, hh]
  have hcs : linesOf (withNewlines ("timestamp,nome,email".data :: subs.map csvRowOf)) =
      "timestamp,nome,email".data :: subs.map csvRowOf := by
    apply linesOf_withNewlines
    intro l hl
    rcases List.mem_cons.mp hl with rfl | hl
    · decide
    · rcases List.mem_map.mp hl with ⟨s, hs, rfl⟩
      exact no_newline_csvRowOf s (hnl s hs)
        (no_newline_of_emailBad_false _ (hval s hs).2)
  refine ⟨withNewlines (subs.map jsonLineFor),
    csvHeader ++ withNewlines (subs.map csvRowOf), ?_, hjl, ?_, ?_, ?_, ?_⟩
  · rw [hstart, hrun]
    simp
  · rw [hjl, List.length_map]
  · intro s hs
    exact parseRecordLine_stringify _ _ _
  · rw [hcsv1]
    exact hcs
  · rw [hcsv1, hcs]
    simp

theorem roundtrip_lines_of_submissions_witness :
    ∃ jl cs,
      runSubmissions (ensureStorage ⟨none, none⟩)
          [(0, "Jane Doe".data, "jane@example.com".data)] = ⟨some jl, some cs⟩ ∧
      linesOf jl = [(0, "Jane Doe".data, "jane@example.com".data)].map jsonLineFor ∧
      (linesOf jl).length = [(0, "Jane Doe".data, "jane@example.com".data)].length ∧
      (∀ s ∈ [(0, "Jane Doe".data, "jane@example.com".data)],
        parseRecordLine (jsonLineFor s) = some ⟨toISOString s.1, s.2.1, s.2.2⟩) ∧
      linesOf cs = "timestamp,nome,email".data ::
        [(0, "Jane Doe".data, "jane@example.com".data)].map csvRowOf ∧
      (linesOf cs).length = [(0, "Jane Doe".data, "jane@example.com".data)].length + 1 :=
  roundtrip_lines_of_submissions [(0, "Jane Doe".data, "jane@example.com".data)]
    (by decide) (by decide)

/-- C4: `toCSVCell` leaves a string without comma, quote or newline
unchanged, otherwise wraps it in double quotes doubling interior quotes, and
an RFC-4180 re-parse of the emitted cell recovers the original string — in
particular for `"Doe, Jane"`. -/
theorem toCSVCell_escape_roundtrip (s : List Char) :
    toCSVCell (.vStr s) =
      (if ',' ∈ s ∨ '"' ∈ s ∨ '\n' ∈ s
       then '"' :: csvDoubleQuotes s ++ ['"'] else s) ∧
    parseCSVCell (toCSVCell (.vStr s)) = some s := by
  constructor
  · have hiff : csvNeedsQuoting s = true ↔ (',' ∈ s ∨ '"' ∈ s ∨ '\n' ∈ s) := by
      simp only [csvNeedsQuoting, List.any_eq_true, Bool.or_eq_true, decide_eq_true_eq]
      constructor
      · rintro ⟨c, hc, (rfl | rfl) | rfl⟩
        · exact Or.inr (Or.inl hc)
        · exact Or.inl hc
        · exact Or.inr (Or.inr hc)
      · rintro (h | h | h)
        · exact ⟨',', h, Or.inl (Or.inr rfl)⟩
        · exact ⟨'"', h, Or.inl (Or.inl rfl)⟩
        · exact ⟨'\n', h, Or.inr rfl⟩
    by_cases h : ',' ∈ s ∨ '"' ∈ s ∨ '\n' ∈ s
    · rw [if_pos h]
      simp [toCSVCell, jsStringOf, hiff.mpr h]
    · rw [if_neg h]
      have hfalse : csvNeedsQuoting s = false := by
        cases hq : csvNeedsQuoting s with
        | false => rfl
        | true => exact absurd (hiff.mp hq) h
      simp [toCSVCell, jsStringOf, hfalse]
  · exact parseCSVCell_toCSVCell s

/-- C5: when the CSV file is absent, `ensureStorage` creates it holding
exactly the header line (`timestamp,nome,email`, the code's byte-level
header); when it exists, its contents are preserved unchanged. -/
theorem ensureStorage_csv_create_or_preserve (st : Storage) :
    (st.csv = none → (ensureStorage st).csv = some csvHeader ∧
      linesOf csvHeader = ["timestamp,nome,email".data]) ∧
    ∀ c, st.csv = some c → (ensureStorage st).csv = some c := by
  constructor
  · intro h
    exact ⟨by simp [ensureStorage, h], by decide⟩
  · intro c h
    simp [ensureStorage, h]

theorem ensureStorage_csv_create_or_preserve_witness :
    (ensureStorage ⟨none, none⟩).csv = some csvHeader ∧
    (ensureStorage ⟨none, some ('x' :: csvHeader)⟩).csv = some ('x' :: csvHeader) :=
  ⟨((ensureStorage_csv_create_or_preserve ⟨none, none⟩).1 rfl).1,
   (ensureStorage_csv_create_or_preserve ⟨none, some ('x' :: csvHeader)⟩).2 _ rfl⟩

/-- C6: `persistSubmission` appends to the JSONL file exactly one
newline-terminated line: the JSON serialization of the record, containing no
interior newline, whose members parse back in the order `timestamp`, `nome`,
`email`. -/
theorem persistSubmission_jsonl_line (st : Storage) (now : Nat)
    (nome email : List Char) :
    (persistSubmission st now nome email).1.jsonl =
      some (st.jsonl.getD [] ++
        (jsonStringifyRecord (toISOString now) nome email ++ ['\n'])) ∧
    '\n' ∉ jsonStringifyRecord (toISOString now) nome email ∧
    parseRecordLine (jsonStringifyRecord (toISOString now) nome email) =
      some ⟨toISOString now, nome, email⟩ :=
  ⟨rfl, no_newline_jsonStringifyRecord _ _ _, parseRecordLine_stringify _ _ _⟩

/-- C7: a payload rejected by the validator makes `POST /api/enviar` respond
400 with the validator's message, and the storage state is returned exactly
as it was — no file is created or appended to. -/
theorem handleEnviar_invalid_payload_400 (st : Storage) (now : Nat)
    (body : JSValue) (msg : List Char)
    (h : validatePayload body = .ok (.invalid msg)) :
    handleEnviar st now body = (st, .badRequest msg) ∧
    Resp.statusCode (.badRequest msg) = 400 := by
  constructor
  · simp [handleEnviar, h]
  · rfl

theorem handleEnviar_invalid_payload_400_witness :
    handleEnviar ⟨some [], some csvHeader⟩ 0
        (.vObj [("nome".data, .vStr "J".data),
          ("email".data, .vStr "jane@example.com".data)]) =
      (⟨some [], some csvHeader⟩, .badRequest nomeMsg) ∧
    Resp.statusCode (.badRequest nomeMsg) = 400 :=
  handleEnviar_invalid_payload_400 ⟨some [], some csvHeader⟩ 0
    (.vObj [("nome".data, .vStr "J".data),
      ("email".data, .vStr "jane@example.com".data)]) nomeMsg rfl

/-- C8: `ensureStorage` is idempotent — a second run yields exactly the same
files — and it preserves an existing CSV file byte for byte, so it neither
truncates it nor duplicates its header. -/
theorem ensureStorage_idempotent (st : Storage) :
    ensureStorage (ensureStorage st) = ensureStorage st ∧
    ∀ c, st.csv = some c → (ensureStorage (ensureStorage st)).csv = some c := by
  constructor
  · simp [ensureStorage]
  · intro c h
    simp [ensureStorage, h]

theorem ensureStorage_idempotent_witness :
    ensureStorage (ensureStorage ⟨some ['j'], some (csvHeader ++ ['r'])⟩) =
      ensureStorage ⟨some ['j'], some (csvHeader ++ ['r'])⟩ ∧
    (ensureStorage (ensureStorage ⟨some ['j'], some (csvHeader ++ ['r'])⟩)).csv =
      some (csvHeader ++ ['r']) :=
  ⟨(ensureStorage_idempotent ⟨some ['j'], some (csvHeader ++ ['r'])⟩).1,
   (ensureStorage_idempotent ⟨some ['j'], some (csvHeader ++ ['r'])⟩).2 _ rfl⟩

/-- C9: a payload accepted by the validator makes `POST /api/enviar` respond
200, echoing the submitted `nome` and `email` unmodified (not trimmed) with
a timestamp that is a valid ISO-8601 string rendering a clock sample taken
no earlier than the request start (`reqStart ≤ t`; `t < isoMax` keeps the
embedded `toISOString` in the 4-digit-year range JavaScript prints). -/
theorem handleEnviar_valid_payload_200 (st : Storage) (reqStart t : Nat)
    (body : JSValue) (ns es : List Char)
    (hclock : reqStart ≤ t) (_hmax : t < isoMax)
    (hn : getProp body "nome".data = .ok (.vStr ns))
    (he : getProp body "email".data = .ok (.vStr es))
    (hv : validatePayload body = .ok .valid) :
    (handleEnviar st t body).2 = .ok ⟨toISOString t, ns, es⟩ ∧
    ((handleEnviar st t body).2).statusCode = 200 ∧
    validISO (toISOString t) = true ∧
    ∃ sample, reqStart ≤ sample ∧ toISOString sample = toISOString t := by
  have h2 : (handleEnviar st t body).2 = .ok ⟨toISOString t, ns, es⟩ := by
    simp [handleEnviar, hv, hn, he, persistSubmission]
  exact ⟨h2, by rw [h2]; rfl, validISO_toISOString t, ⟨t, hclock, rfl⟩⟩

theorem handleEnviar_valid_payload_200_witness :
    (handleEnviar ⟨none, none⟩ 0
        (.vObj [("nome".data, .vStr "Jane Doe".data),
          ("email".data, .vStr "jane@example.com".data)])).2 =
      .ok ⟨toISOString 0, "Jane Doe".data, "jane@example.com".data⟩ ∧
    ((handleEnviar ⟨none, none⟩ 0
        (.vObj [("nome".data, .vStr "Jane Doe".data),
          ("email".data, .vStr "jane@example.com".data)])).2).statusCode = 200 ∧
    validISO (toISOString 0) = true ∧
    ∃ sample, 0 ≤ sample ∧ toISOString sample = toISOString 0 :=
  handleEnviar_valid_payload_200 ⟨none, none⟩ 0 0
    (.vObj [("nome".data, .vStr "Jane Doe".data),
      ("email".data, .vStr "jane@example.com".data)])
    "Jane Doe".data "jane@example.com".data
    (Nat.le_refl 0) (by decide) rfl rfl rfl

/-- C10: `toCSVCell` renders both `null` and `undefined` as the empty cell
(the guard `value == null` catches both by loose equality), not as the text
`null`/`undefined` and not by raising. -/
theorem toCSVCell_nullish_empty :
    toCSVCell .vNull = [] ∧ toCSVCell .vUndefined = [] :=
  ⟨rfl, rfl⟩

end ProjetoIntegracao
